import Mathlib

/-!
Verification development for the bet-code converter (`main.py`).

The Python source is shallowly embedded below.  Pure helper functions of the
source become Lean functions; Python dictionaries become association lists;
`None`-returning fallible code becomes `Option`; Python floats are modelled as
exact rationals (`Rat`), which agrees with the source on every decimal literal
the program manipulates; the Playwright page fetcher and the runtime-salted
builtin `hash` are external effects and are passed in as parameters.
-/

namespace BetConverter

/-- Whitespace class used by Python `str.strip` and the regex class `\s`
for the ASCII range handled by the scraper. -/
def pyIsSpace (c : Char) : Bool :=
  c == ' ' || c == '\t' || c == '\n' || c == '\r' || c == '\x0b' || c == '\x0c'

/-- Right-hand side of Python `str.strip`: removes trailing whitespace. -/
def trimRight : List Char → List Char
  | [] => []
  | c :: rest =>
    match trimRight rest with
    | [] => if pyIsSpace c then [] else [c]
    | r => c :: r

/-- Python `str.strip` on a character list. -/
def stripChars (l : List Char) : List Char :=
  trimRight (l.dropWhile pyIsSpace)

/-- Python `str.strip`. -/
def pyStrip (s : String) : String :=
  ⟨stripChars s.data⟩

/-! ## JSON value model

`json.loads` produces nested dict/list/str/number/bool/None structures; we
model them with one inductive.  Numbers are exact rationals (the source only
ever compares and copies them, never exercises float rounding). -/

inductive JSON where
  | null : JSON
  | bool : Bool → JSON
  | num : Rat → JSON
  | str : String → JSON
  | arr : List JSON → JSON
  | obj : List (String × JSON) → JSON

/-- First-match association-list lookup; Python dict keys are unique, so this
is `dict.get` (returning `none` for a missing key). -/
def alookup {α : Type} {β : Type} [DecidableEq α] : List (α × β) → α → Option β
  | [], _ => none
  | (k, v) :: rest, key => if k = key then some v else alookup rest key

/-- Python truthiness of a JSON value (`bool(x)`): `None`, `False`, `0`,
`""`, `[]` and `{}` are falsy. -/
def truthy : JSON → Bool
  | .null => false
  | .bool b => b
  | .num q => decide (q ≠ 0)
  | .str s => !(s == "")
  | .arr l => !l.isEmpty
  | .obj l => !l.isEmpty

/-! ## Leg / slip data model

A leg in the source is always the five-key dict
`{"home": _, "away": _, "market": _, "pick": _, "odds": _}`; the first four
values are whatever the payload supplied (usually strings), `odds` is a float
or `None`. -/

structure Leg where
  home : JSON
  away : JSON
  market : JSON
  pick : JSON
  odds : Option Rat

structure Slip where
  legs : List Leg

/-! ## Text-pattern leg extractor (`parse_slip_from_text`)

The source applies `re.search(r"(.+?)\s+v(?:s|\.)?\s+(.+)", line, re.I)` to
every stripped non-empty line, falling back to
`re.search(r"(.+?)\s+vs\s+(.+)", line, re.I)`.

The search is embedded directly.  Because `.` matches every character of a
line (lines contain no newline) any match starting at position `i > 0`
extends to a match starting at position `0` by enlarging the lazy group
`(.+?)`; hence `re.search` always reports the match starting at 0 whose
first group is shortest, which is what `searchLoop` computes. -/

/-- The regex tail `\s+(.+)`: a greedy non-empty whitespace run, then a
non-empty remainder.  When nothing follows the maximal run the engine
backtracks and gives the last whitespace character to `(.+)`, which is
possible only when the run has length at least 2. -/
def matchTail (r : List Char) : Option (List Char) :=
  let w := r.takeWhile pyIsSpace
  let rest := r.dropWhile pyIsSpace
  if w.isEmpty then none
  else if rest.isEmpty then
    if 2 ≤ w.length then some (w.drop (w.length - 1)) else none
  else some rest

/-- The regex part `(?:s|\.)?\s+(.+)` right after the letter `v`, with the
alternatives tried in the regex order: `s`, then `.`, then the empty
branch. -/
def afterV (r : List Char) : Option (List Char) :=
  (match r with
   | d :: r3 => if d == 's' || d == 'S' then matchTail r3 else none
   | [] => none)
  <|>
  (match r with
   | d :: r3 => if d == '.' then matchTail r3 else none
   | [] => none)
  <|>
  matchTail r

/-- Match of `\s+v(?:s|\.)?\s+(.+)` (case-insensitive `v`) against a suffix,
returning the second capture group. -/
def tryRest1 (r : List Char) : Option (List Char) :=
  let w := r.takeWhile pyIsSpace
  match r.dropWhile pyIsSpace with
  | c :: r2 => if w.isEmpty then none else if c == 'v' || c == 'V' then afterV r2 else none
  | [] => none

/-- Match of `\s+vs\s+(.+)` (case-insensitive) against a suffix, for the
source's second, fallback regex. -/
def tryRest2 (r : List Char) : Option (List Char) :=
  let w := r.takeWhile pyIsSpace
  match r.dropWhile pyIsSpace with
  | c :: d :: r2 =>
    if w.isEmpty then none
    else if (c == 'v' || c == 'V') && (d == 's' || d == 'S') then matchTail r2 else none
  | _ => none

/-- Lazy scan for the first split `line = g1 ++ rest` with `g1` non-empty
(shortest first, i.e. the lazy group `(.+?)`) whose remainder matches the
rest of the regex. -/
def searchLoop (t : List Char → Option (List Char)) :
    List Char → List Char → Option (List Char × List Char)
  | _, [] => none
  | g1rev, c :: rs =>
    match t rs with
    | some g2 => some ((c :: g1rev).reverse, g2)
    | none => searchLoop t (c :: g1rev) rs

/-- `re.search(r"(.+?)\s+v(?:s|\.)?\s+(.+)", line, re.I)`. -/
def reSearch1 (l : List Char) : Option (List Char × List Char) :=
  searchLoop tryRest1 [] l

/-- `re.search(r"(.+?)\s+vs\s+(.+)", line, re.I)`. -/
def reSearch2 (l : List Char) : Option (List Char × List Char) :=
  searchLoop tryRest2 [] l

/-- Per-line body of `parse_slip_from_text`: first regex, fallback regex,
then the leg `{"home": m.group(1).strip(), "away": m.group(2).strip(),
"market": "Unknown", "pick": "", "odds": None}`. -/
def legOfLine (line : String) : Option Leg :=
  match reSearch1 line.data <|> reSearch2 line.data with
  | some (g1, g2) =>
    some { home := JSON.str ⟨stripChars g1⟩, away := JSON.str ⟨stripChars g2⟩,
           market := JSON.str "Unknown", pick := JSON.str "", odds := none }
  | none => none

/-- Split at `'\n'` (the accumulator holds the current line reversed). -/
def splitLinesAux : List Char → List Char → List (List Char)
  | [], acc => [acc.reverse]
  | '\n' :: rest, acc => acc.reverse :: splitLinesAux rest []
  | c :: rest, acc => splitLinesAux rest (c :: acc)

/-- `[l.strip() for l in text.splitlines() if l.strip()]`.  (Lines are split
at `'\n'`; a preceding `'\r'` is removed by the strip, and the final
trailing empty piece is removed by the non-empty filter, so this agrees
with `str.splitlines` on the newline conventions the pages use.) -/
def linesOf (t : String) : List String :=
  ((splitLinesAux t.data []).map (fun l => pyStrip ⟨l⟩)).filter (fun l => l != "")

/-- `parse_slip_from_text`: one leg per matching line, in line order;
`None` when no line matched (`return legs if legs else None`). -/
def parse_slip_from_text (t : String) : Option (List Leg) :=
  let legs := (linesOf t).filterMap legOfLine
  if legs.isEmpty then none else some legs

/-! ## Payload-to-leg normalizer (`parse_slip_from_payload`) -/

/-- Decimal digit list to `Nat`. -/
def digitsToNat (ds : List Char) : Nat :=
  ds.foldl (fun a c => a * 10 + (c.toNat - '0'.toNat)) 0

/-- Multiply a rational by `10^e` for an integer exponent `e`. -/
def ratShift10 (q : Rat) (e : Int) : Rat :=
  if 0 ≤ e then q * (10 : Rat) ^ e.toNat else q / (10 : Rat) ^ (-e).toNat

/-- Exponent clause of `float(str)`: either nothing, or `e`/`E`, an optional
sign, and digits running to the end of the string. -/
def parseExpPart : List Char → Option Int
  | [] => some 0
  | c :: r =>
    if c == 'e' || c == 'E' then
      let p : Int × List Char :=
        match r with
        | '+' :: t => (1, t)
        | '-' :: t => (-1, t)
        | t => (1, t)
      let ds := p.2.takeWhile Char.isDigit
      if ds.isEmpty || !((p.2.dropWhile Char.isDigit).isEmpty) then none
      else some (p.1 * (digitsToNat ds : Int))
    else none

/-- Python `float(str)` on the decimal forms the program can meet:
optional surrounding whitespace, optional sign, `digits`, `digits.digits`,
`digits.` or `.digits`, and an optional exponent.  Special forms
(`inf`, `nan`, underscore separators) have no rational value and are
modelled as failure. -/
def pyFloatOfString (s : String) : Option Rat :=
  let l := stripChars s.data
  let p : Int × List Char :=
    match l with
    | '+' :: t => (1, t)
    | '-' :: t => (-1, t)
    | t => (1, t)
  let ip := p.2.takeWhile Char.isDigit
  let r1 := p.2.dropWhile Char.isDigit
  match r1 with
  | '.' :: r2 =>
    let fp := r2.takeWhile Char.isDigit
    let r3 := r2.dropWhile Char.isDigit
    if ip.isEmpty && fp.isEmpty then none
    else
      match parseExpPart r3 with
      | some e =>
        some (ratShift10 ((p.1 : Rat) *
          ((digitsToNat ip : Rat) + (digitsToNat fp : Rat) / (10 : Rat) ^ fp.length)) e)
      | none => none
  | _ =>
    if ip.isEmpty then none
    else
      match parseExpPart r1 with
      | some e => some (ratShift10 ((p.1 : Rat) * (digitsToNat ip : Rat)) e)
      | none => none

/-- Python `float(x)` for the JSON values a payload item can hold.
`float` of a list/dict/None raises `TypeError`; the source catches every
exception and turns it into `None`, so those cases are `none` here. -/
def pyFloat : JSON → Option Rat
  | .num q => some q
  | .bool b => some (if b then 1 else 0)
  | .str s => pyFloatOfString s
  | _ => none

/-- The chain `it.get(k1) or it.get(k2) or ...`: first alias whose value is
present and truthy; `none` when every alias is absent or falsy. -/
def firstTruthy (it : List (String × JSON)) : List String → Option JSON
  | [] => none
  | k :: ks =>
    match alookup it k with
    | some v => if truthy v then some v else firstTruthy it ks
    | none => firstTruthy it ks

/-- `it.get(k1) or ... or ""`. -/
def getAlias (it : List (String × JSON)) (ks : List String) : JSON :=
  (firstTruthy it ks).getD (JSON.str "")

/-- Body of the item loop of `parse_slip_from_payload`: alias probing per
field, and the odds coercion
`try: odds = float(odds) if odds else None except: odds = None`. -/
def legOfObj (it : List (String × JSON)) : Leg :=
  { home := getAlias it ["home", "team1", "homeName"]
    away := getAlias it ["away", "team2", "awayName"]
    market := getAlias it ["market", "marketName", "type"]
    pick := getAlias it ["pick", "selection"]
    odds := (firstTruthy it ["odds", "price", "odd"]).bind pyFloat }

/-- An item of the payload list.  The source calls `it.get(...)`, which
requires a dict; a non-dict item would raise `AttributeError` in Python, a
case no JSON payload reached through `json.loads`-extracted objects with the
candidate keys produces and which every theorem below avoids by quantifying
over object items only. -/
def legOfItem : JSON → Leg
  | .obj fs => legOfObj fs
  | _ => legOfObj []

/-- The fixed priority order of top-level candidate keys. -/
def candidateKeys : List String := ["booking", "slip", "bets", "items", "data"]

/-- The key scan of `parse_slip_from_payload`: `data = payload.get(key)`;
`if not data: continue`; only a (necessarily non-empty) list value is
consumed; `if legs: return legs`. -/
def slipFromKeys (payload : List (String × JSON)) : List String → Option (List Leg)
  | [] => none
  | k :: ks =>
    match alookup payload k with
    | none => slipFromKeys payload ks
    | some v =>
      if truthy v then
        match v with
        | JSON.arr items =>
          let legs := items.map legOfItem
          if legs.isEmpty then slipFromKeys payload ks else some legs
        | _ => slipFromKeys payload ks
      else slipFromKeys payload ks

/-- `parse_slip_from_payload` (the payload dict is its key/value list). -/
def parse_slip_from_payload (payload : List (String × JSON)) : Option (List Leg) :=
  slipFromKeys payload candidateKeys

/-! ## Strict JSON parser (`json.loads`)

Recursive-descent parser for RFC-8259 JSON as `json.loads` accepts it:
no trailing commas, no single quotes, `"`-strings with the standard escapes,
numbers `-?(0|[1-9]\d*)(\.\d+)?([eE][+-]?\d+)?`, surrounding whitespace
allowed, trailing data rejected.  Duplicate object keys keep the last
occurrence, as Python dicts do.  (Lone `\uXXXX` surrogates cannot inhabit
`Char` and are modelled as failure; the scraped pages never contain them.) -/

def jsonWs (c : Char) : Bool := c == ' ' || c == '\t' || c == '\n' || c == '\r'

def skipWs (l : List Char) : List Char := l.dropWhile jsonWs

/-- Dict insertion with Python's last-occurrence-wins duplicate handling. -/
def objInsert (fs : List (String × JSON)) (k : String) (v : JSON) : List (String × JSON) :=
  (fs.filter (fun p => !(p.1 == k))) ++ [(k, v)]

/-- Value of one hexadecimal digit, by code point: `0`-`9`, `a`-`f`,
`A`-`F`. -/
def hexVal? (c : Char) : Option Nat :=
  let n := c.toNat
  if 48 ≤ n && n ≤ 57 then some (n - 48)
  else if 97 ≤ n && n ≤ 102 then some (n - 87)
  else if 65 ≤ n && n ≤ 70 then some (n - 55)
  else none

/-- The single-character JSON escapes, as a table keyed by the character
following the backslash. -/
def escTable : List (Char × Char) :=
  [('"', '"'), ('\\', '\\'), ('/', '/'), ('b', '\x08'), ('f', '\x0c'),
   ('n', '\n'), ('r', '\r'), ('t', '\t')]

/-- JSON string body after the opening quote; returns the string and the
remaining input after the closing quote. -/
def parseJStringBody : List Char → List Char → Option (String × List Char)
  | [], _ => none
  | '"' :: r, acc => some (⟨acc.reverse⟩, r)
  | '\\' :: r, acc =>
    (match r with
     | 'u' :: h1 :: h2 :: h3 :: h4 :: r2 =>
       (match hexVal? h1, hexVal? h2, hexVal? h3, hexVal? h4 with
        | some a, some b, some c, some d =>
          let n := ((a * 16 + b) * 16 + c) * 16 + d
          if n < 0xd800 then parseJStringBody r2 (Char.ofNat n :: acc) else none
        | _, _, _, _ => none)
     | e :: r2 =>
       (match alookup escTable e with
        | some c => parseJStringBody r2 (c :: acc)
        | none => none)
     | [] => none)
  | c :: r, acc => if c.toNat < 32 then none else parseJStringBody r (c :: acc)

/-- JSON number literal, returning its exact rational value. -/
def parseJNumber (l : List Char) : Option (JSON × List Char) :=
  let p : Int × List Char := match l with | '-' :: t => ((-1 : Int), t) | t => (1, t)
  let ipDigits := p.2.takeWhile Char.isDigit
  if ipDigits.isEmpty then none
  else if 1 < ipDigits.length && ipDigits.headD '0' == '0' then none
  else
    let r1 := p.2.dropWhile Char.isDigit
    let fracRes : Option (Rat × List Char) :=
      match r1 with
      | '.' :: r2 =>
        let fp := r2.takeWhile Char.isDigit
        if fp.isEmpty then none
        else some ((digitsToNat fp : Rat) / (10 : Rat) ^ fp.length, r2.dropWhile Char.isDigit)
      | _ => some (0, r1)
    match fracRes with
    | none => none
    | some (frac, r2) =>
      let expRes : Option (Int × List Char) :=
        match r2 with
        | c :: r3 =>
          if c == 'e' || c == 'E' then
            let q : Int × List Char :=
              match r3 with
              | '+' :: t => (1, t)
              | '-' :: t => ((-1 : Int), t)
              | t => (1, t)
            let eds := q.2.takeWhile Char.isDigit
            if eds.isEmpty then none
            else some (q.1 * (digitsToNat eds : Int), q.2.dropWhile Char.isDigit)
          else some (0, r2)
        | [] => some (0, r2)
      match expRes with
      | none => none
      | some (e, r5) =>
        some (JSON.num (ratShift10 ((p.1 : Rat) * ((digitsToNat ipDigits : Rat) + frac)) e), r5)

mutual

/-- JSON value parser with fuel (the nesting depth is bounded by the input
length, so `length + 1` fuel always suffices). -/
def parseJValue : Nat → List Char → Option (JSON × List Char)
  | 0, _ => none
  | fuel + 1, l =>
    match skipWs l with
    | '{' :: r =>
      (match skipWs r with
       | '}' :: r2 => some (JSON.obj [], r2)
       | r1 => parseJMember fuel r1 [])
    | '[' :: r =>
      (match skipWs r with
       | ']' :: r2 => some (JSON.arr [], r2)
       | r1 =>
         match parseJValue fuel r1 with
         | some (v, r2) => parseJItems fuel r2 [v]
         | none => none)
    | '"' :: r => (parseJStringBody r []).map (fun q => (JSON.str q.1, q.2))
    | 't' :: 'r' :: 'u' :: 'e' :: r => some (JSON.bool true, r)
    | 'f' :: 'a' :: 'l' :: 's' :: 'e' :: r => some (JSON.bool false, r)
    | 'n' :: 'u' :: 'l' :: 'l' :: r => some (JSON.null, r)
    | l2 => parseJNumber l2
termination_by structural fuel => fuel

/-- Object members after the opening brace (input already at a `"` key). -/
def parseJMember : Nat → List Char → List (String × JSON) → Option (JSON × List Char)
  | 0, _, _ => none
  | fuel + 1, l, acc =>
    match l with
    | '"' :: r =>
      (match parseJStringBody r [] with
       | some (k, r1) =>
         (match skipWs r1 with
          | ':' :: r2 =>
            (match parseJValue fuel r2 with
             | some (v, r3) =>
               (match skipWs r3 with
                | ',' :: r4 => parseJMember fuel (skipWs r4) (objInsert acc k v)
                | '}' :: r4 => some (JSON.obj (objInsert acc k v), r4)
                | _ => none)
             | none => none)
          | _ => none)
       | none => none)
    | _ => none
termination_by structural fuel => fuel

/-- Array items after the first element. -/
def parseJItems : Nat → List Char → List JSON → Option (JSON × List Char)
  | 0, _, _ => none
  | fuel + 1, r, acc =>
    match skipWs r with
    | ',' :: r2 =>
      (match parseJValue fuel r2 with
       | some (v, r3) => parseJItems fuel r3 (acc ++ [v])
       | none => none)
    | ']' :: r2 => some (JSON.arr acc, r2)
    | _ => none
termination_by structural fuel => fuel

end

/-- `json.loads`: a single JSON value with nothing but whitespace around it. -/
def json_loads (s : String) : Option JSON :=
  match parseJValue (s.data.length + 1) s.data with
  | some (v, rest) => if (skipWs rest).isEmpty then some v else none
  | none => none

/-! ## Embedded-payload locator (`extract_json_payload_from_html`) -/

/-- Consume an exact literal. -/
def dropLit : List Char → List Char → Option (List Char)
  | [], r => some r
  | _, [] => none
  | c :: cs, d :: r => if c == d then dropLit cs r else none

/-- The lazy capture tail of `({.*?});` after its opening brace: everything
up to the first `}` that is immediately followed by `;`. -/
def braceScan : List Char → Option (List Char)
  | '}' :: ';' :: _ => some []
  | c :: rest => (braceScan rest).map (fun mid => c :: mid)
  | [] => none

/-- Capture of `({.*?});` starting at the current position. -/
def captureBrace (r : List Char) : Option (List Char) :=
  match r with
  | '{' :: rest => (braceScan rest).map (fun mid => '{' :: (mid ++ ['}']))
  | _ => none

/-- Prelude `LIT\s*=\s*` of the assignment patterns, leaving the input at
the expected `{`. -/
def preludeAssign (lit : List Char) (r : List Char) : Option (List Char) :=
  match dropLit lit r with
  | some r1 =>
    (match r1.dropWhile pyIsSpace with
     | '=' :: r2 => some (r2.dropWhile pyIsSpace)
     | _ => none)
  | none => none

/-- Prelude `var\s+initialState\s*=\s*` of the third pattern. -/
def preludeVar (r : List Char) : Option (List Char) :=
  match dropLit ['v', 'a', 'r'] r with
  | some r1 =>
    if (r1.takeWhile pyIsSpace).isEmpty then none
    else
      match dropLit "initialState".data (r1.dropWhile pyIsSpace) with
      | some r2 =>
        (match r2.dropWhile pyIsSpace with
         | '=' :: r3 => some (r3.dropWhile pyIsSpace)
         | _ => none)
      | none => none
  | none => none

/-- `re.search` of a `PRELUDE({.*?});` pattern: try every start position,
leftmost first. -/
def searchCapture (pre : List Char → Option (List Char)) : List Char → Option (List Char)
  | [] => (pre []).bind captureBrace
  | c :: rs =>
    match (pre (c :: rs)).bind captureBrace with
    | some cap => some cap
    | none => searchCapture pre rs

/-- The lazy tail of `({"KEY".*?})`: everything up to the first `}`. -/
def takeUntilBrace : List Char → Option (List Char)
  | '}' :: _ => some []
  | c :: rest => (takeUntilBrace rest).map (fun mid => c :: mid)
  | [] => none

/-- `re.search` of the literal-headed patterns `({"booking".*?})` and
`({"bets".*?})`. -/
def searchLitJson (lit : List Char) : List Char → Option (List Char)
  | [] => ((dropLit lit []).bind takeUntilBrace).map (fun mid => lit ++ mid ++ ['}'])
  | c :: rs =>
    match (dropLit lit (c :: rs)).bind takeUntilBrace with
    | some mid => some (lit ++ mid ++ ['}'])
    | none => searchLitJson lit rs

/-- The source's best-effort second parse attempt.  The comment in
`main.py` speaks of removing trailing commas, but the executed code is
`json.loads(txt)` on the very same unmodified substring. -/
def relaxed_reparse (txt : String) : Option JSON := json_loads txt

/-- The five textual patterns, in the source's priority order. -/
def patternSearches : List (List Char → Option (List Char)) :=
  [ searchCapture (preludeAssign "window.__INITIAL_STATE__".data)
  , searchCapture (preludeAssign "window.__DATA__".data)
  , searchCapture preludeVar
  , searchLitJson "\x7b\"booking\"".data
  , searchLitJson "\x7b\"bets\"".data ]

/-- Pattern loop of `extract_json_payload_from_html`: on a textual match,
strict parse, then the second (identical) parse attempt, then the next
pattern. -/
def extractGo (html : List Char) : List (List Char → Option (List Char)) → Option JSON
  | [] => none
  | pat :: rest =>
    match pat html with
    | none => extractGo html rest
    | some cap =>
      match json_loads ⟨cap⟩ with
      | some payload => some payload
      | none =>
        match relaxed_reparse ⟨cap⟩ with
        | some payload => some payload
        | none => extractGo html rest

/-- `extract_json_payload_from_html`. -/
def extract_json_payload_from_html (html : String) : Option JSON :=
  extractGo html.data patternSearches

/-! ## Market translator, code synthesizer, convert endpoint -/

inductive Platform where
  | sportybet : Platform
  | bet9ja : Platform
deriving DecidableEq

/-- `MARKET_MAP` of the source. -/
def MARKET_MAP : List ((Platform × String) × String) :=
  [ ((Platform.sportybet, "1X2"), "Match Result")
  , ((Platform.sportybet, "GG"), "Both Teams To Score")
  , ((Platform.sportybet, "O/U 2.5"), "Over/Under 2.5 Goals")
  , ((Platform.bet9ja, "Match Result"), "1X2")
  , ((Platform.bet9ja, "Both Teams To Score"), "GG")
  , ((Platform.bet9ja, "Over/Under 2.5 Goals"), "O/U 2.5") ]

/-- `MARKET_MAP.get((from_plat, market_in), market_in)`: the dict keys are
string pairs, so a non-string market can never hit the table and falls
through unchanged. -/
def marketGet (from_plat : Platform) (market_in : JSON) : JSON :=
  match market_in with
  | JSON.str s => JSON.str ((alookup MARKET_MAP (from_plat, s)).getD s)
  | m => m

/-- `map_markets` (the source also receives `to_plat` and never reads it). -/
def map_markets : List Leg → Platform → Platform → List Leg
  | [], _, _ => []
  | leg :: rest, from_plat, to_plat =>
    { leg with market := marketGet from_plat leg.market } :: map_markets rest from_plat to_plat

/-- Decimal digits of `n`, most significant first (empty for 0). -/
def natDigitsRev : Nat → List Char
  | 0 => []
  | n + 1 => Nat.digitChar ((n + 1) % 10) :: natDigitsRev ((n + 1) / 10)
decreasing_by exact Nat.div_lt_self (Nat.succ_pos n) (by omega)

def natDigits (n : Nat) : List Char := (natDigitsRev n).reverse

/-- Python `f"{n:05d}"` for `n < 100000`: zero-pad the decimal digits to
width 5. -/
def pad5 (n : Nat) : List Char :=
  List.replicate (5 - (natDigits n).length) '0' ++ natDigits n

/-- `generate_booking_code_for_demo`.  The builtin `hash` is salted per
process run, so it enters as a parameter; the source applies
`abs(hash(source_code)) % 100000`. -/
def generate_booking_code_for_demo (hashFn : String → Int) (to_plat : Platform)
    (source_code : String) : String :=
  let pfx : List Char := if to_plat = Platform.bet9ja then ['B', 'J'] else ['S', 'P']
  ⟨pfx ++ pad5 ((hashFn source_code).natAbs % 100000)⟩

structure ConvertRequest where
  code : String
  from_platform : Platform
  to_platform : Platform

structure ConvertResult where
  ok : Bool
  message : String
  converted_code : Option String
  preview : Option Slip

/-- The demo slip the source hard-codes for the bet9ja code `"BJ99999"`. -/
def demoBet9jaLegs : List Leg :=
  [ { home := JSON.str "Barcelona", away := JSON.str "Real Madrid",
      market := JSON.str "O/U 2.5", pick := JSON.str "OVER", odds := some (195 / 100 : Rat) } ]

/-- The `slip = ...` if/elif of `convert`: scrape for sportybet, demo
lookup for bet9ja.  The Playwright scraper is the external page-fetch
effect and enters as the `fetchSportybet` parameter (`None` = fetch failed
or found nothing, exactly the source's contract for
`fetch_sportybet_slip_playwright`). -/
def resolveSlip (fetchSportybet : String → Option (List Leg))
    (req : ConvertRequest) : Option (List Leg) :=
  match req.from_platform with
  | Platform.sportybet => fetchSportybet req.code
  | Platform.bet9ja => if req.code = "BJ99999" then some demoBet9jaLegs else none

/-- The `/api/convert` endpoint body. -/
def convert (fetchSportybet : String → Option (List Leg)) (hashFn : String → Int)
    (req : ConvertRequest) : ConvertResult :=
  if req.from_platform = req.to_platform then
    { ok := false, message := "From/To platforms are the same.",
      converted_code := none, preview := none }
  else
    match resolveSlip fetchSportybet req with
    | none =>
      { ok := false, message := "Code not found or could not fetch (try a valid SportyBet code).",
        converted_code := none, preview := none }
    | some legs =>
      { ok := true, message := "Converted (live scrape).",
        converted_code := some (generate_booking_code_for_demo hashFn req.to_platform req.code),
        preview := some { legs := map_markets legs req.from_platform req.to_platform } }

/-! ## Spec-side definitions

These follow the words of the specification, for the refinement-style
claims that compare spec language with the code. -/

/-- The versus-separator token forms named by the spec: case-insensitive
`v`, `vs`, `v.`. -/
def vforms : List (List Char) :=
  [['v'], ['V'], ['v', 's'], ['v', 'S'], ['V', 's'], ['V', 'S'], ['v', '.'], ['V', '.']]

/-- Spec 4.1: the line contains a versus separator "surrounded by
whitespace" with "a preceding and following non-empty name". -/
def spec_hasVersusSeparator (line : String) : Prop :=
  ∃ pre w1 tok w2 post : List Char,
    line.data = pre ++ w1 ++ tok ++ w2 ++ post ∧
    pre ≠ [] ∧ post ≠ [] ∧ w1 ≠ [] ∧ w2 ≠ [] ∧
    (∀ c ∈ w1, pyIsSpace c = true) ∧ (∀ c ∈ w2, pyIsSpace c = true) ∧
    tok ∈ vforms

/-- The spec's regular expression `^(SP|BJ)\d{5}$` as a predicate. -/
def matches_SPBJ5 (s : String) : Bool :=
  match s.data with
  | a :: b :: rest =>
    ((a == 'S' && b == 'P') || (a == 'B' && b == 'J')) && rest.length == 5 &&
      rest.all Char.isDigit
  | _ => false

/-- Every odds alias of an item is absent or falsy. -/
def allOddsAliasesFalsy (it : List (String × JSON)) : Bool :=
  ["odds", "price", "odd"].all (fun k =>
    match alookup it k with
    | some v => !truthy v
    | none => true)

/-! ## Concrete inputs used by individual claims -/

/-- A payload whose first candidate key `booking` is present with an empty
list while a later key `bets` holds a usable item. -/
def c1Payload : List (String × JSON) :=
  [("booking", JSON.arr []),
   ("bets", JSON.arr [JSON.obj [("team1", JSON.str "X"), ("team2", JSON.str "Y")]])]

/-- Page markup whose second pattern matches textually but captures a
substring with a trailing comma (a trailing artifact strict JSON rejects). -/
def c2Html : String := "<script>window.__DATA__ = \x7b\"a\": 1,\x7d;</script>"

/-- The substring the second pattern captures out of `c2Html`. -/
def c2Cap : String := "\x7b\"a\": 1,\x7d"

/-- Markup where the second pattern captures unparseable text and only the
fifth pattern yields a parseable object. -/
def c2Html2 : String := "window.__DATA__ = \x7b\"a\": 1,\x7d; \x7b\"bets\": [1]\x7d"

/-- A payload item whose first present odds alias is falsy (`odds: 0`)
while a later alias holds a usable value (`price: 2.5`). -/
def c10Payload : List (String × JSON) :=
  [("bets", JSON.arr [JSON.obj [("odds", JSON.num 0), ("price", JSON.num (5 / 2))]])]

/-! ## Helper lemmas -/

theorem alookup_cons_ne {β : Type} (k : String) (v : β) (rest : List (String × β))
    (key : String) (h : k ≠ key) : alookup ((k, v) :: rest) key = alookup rest key := by
  simp [alookup, h]

/-- A key/value pair whose key occurs in none of the scanned candidate keys
does not change the key scan. -/
theorem slipFromKeys_cons_irrel (payload : List (String × JSON)) (k : String) (v : JSON)
    (ks : List String) (h : k ∉ ks) :
    slipFromKeys ((k, v) :: payload) ks = slipFromKeys payload ks := by
  induction ks with
  | nil => rfl
  | cons k1 ks ih =>
    have hne : k ≠ k1 := fun he => h (he ▸ List.mem_cons_self _ _)
    have ih2 := ih (fun hm => h (List.mem_cons_of_mem _ hm))
    simp only [slipFromKeys]
    rw [alookup_cons_ne _ _ _ _ hne, ih2]

/-- A candidate key that is absent is skipped. -/
theorem slipFromKeys_skip_none (p : List (String × JSON)) (k : String) (ks : List String)
    (h : alookup p k = none) : slipFromKeys p (k :: ks) = slipFromKeys p ks := by
  simp only [slipFromKeys]
  rw [h]

/-- A candidate key with a falsy value is skipped. -/
theorem slipFromKeys_skip_falsy (p : List (String × JSON)) (k : String) (ks : List String)
    (v : JSON) (h1 : alookup p k = some v) (h2 : truthy v = false) :
    slipFromKeys p (k :: ks) = slipFromKeys p ks := by
  simp only [slipFromKeys]
  rw [h1]
  simp [h2]

/-- When every alias in the chain is absent or falsy the chain is `None`. -/
theorem firstTruthy_eq_none (it : List (String × JSON)) (ks : List String)
    (h : ks.all (fun k =>
      match alookup it k with
      | some v => !truthy v
      | none => true) = true) :
    firstTruthy it ks = none := by
  induction ks with
  | nil => rfl
  | cons k ks ih =>
    rw [List.all_cons, Bool.and_eq_true] at h
    rw [firstTruthy]
    cases halk : alookup it k with
    | none => exact ih h.2
    | some v =>
      have hv : truthy v = false := by
        have := h.1
        rw [halk] at this
        simpa using this
      simp [hv, ih h.2]

/-- `map_markets` is the pointwise market rewrite. -/
theorem map_markets_eq_map (legs : List Leg) (fp tp : Platform) :
    map_markets legs fp tp = legs.map (fun l => { l with market := marketGet fp l.market }) := by
  induction legs with
  | nil => rfl
  | cons leg rest ih => simp [map_markets, ih]

theorem natDigitsRev_length_le (k : Nat) : ∀ n : Nat, n < 10 ^ k → (natDigitsRev n).length ≤ k := by
  induction k with
  | zero =>
    intro n h
    have : n = 0 := by simpa using h
    subst this
    simp [natDigitsRev]
  | succ k ih =>
    intro n h
    cases n with
    | zero => simp [natDigitsRev]
    | succ m =>
      rw [natDigitsRev]
      simp only [List.length_cons]
      have hdiv : (m + 1) / 10 < 10 ^ k := by
        rw [Nat.div_lt_iff_lt_mul (by norm_num)]
        have hp : 10 ^ (k + 1) = 10 ^ k * 10 := pow_succ 10 k
        omega
      have := ih _ hdiv
      omega

theorem natDigitsRev_digits (n : Nat) : ∀ c ∈ natDigitsRev n, c.isDigit = true := by
  induction n using Nat.strong_induction_on with
  | _ n ih =>
    cases n with
    | zero => intro c hc; simp [natDigitsRev] at hc
    | succ m =>
      intro c hc
      rw [natDigitsRev] at hc
      rcases List.mem_cons.mp hc with h1 | h2
      · subst h1
        have hd : (m + 1) % 10 < 10 := Nat.mod_lt _ (by norm_num)
        have hall : ∀ d, d < 10 → (Nat.digitChar d).isDigit = true := by decide
        exact hall _ hd
      · exact ih ((m + 1) / 10) (Nat.div_lt_self (Nat.succ_pos m) (by norm_num)) c h2

theorem pad5_length (n : Nat) (h : n < 100000) : (pad5 n).length = 5 := by
  have h1 : (natDigits n).length ≤ 5 := by
    have h2 : n < 10 ^ 5 := by norm_num; omega
    have := natDigitsRev_length_le 5 n h2
    simpa [natDigits] using this
  simp only [pad5, List.length_append, List.length_replicate]
  omega

theorem pad5_digits (n : Nat) : ∀ c ∈ pad5 n, c.isDigit = true := by
  intro c hc
  rcases List.mem_append.mp hc with h1 | h2
  · rcases (List.mem_replicate.mp h1) with ⟨_, rfl⟩
    decide
  · exact natDigitsRev_digits n c (List.mem_reverse.mp h2)

/-! ### Characterization of the versus-regex of `parse_slip_from_text` -/

theorem matchTail_isSome_cons (c : Char) (rs : List Char) :
    (matchTail (c :: rs)).isSome = true ↔ (pyIsSpace c = true ∧ rs ≠ []) := by
  by_cases hc : pyIsSpace c = true
  · simp only [matchTail, List.takeWhile_cons_of_pos hc, List.dropWhile_cons_of_pos hc,
      List.isEmpty_cons, Bool.false_eq_true, if_false]
    by_cases hd : (rs.dropWhile pyIsSpace).isEmpty = true
    · rw [if_pos hd]
      have hteq : rs.takeWhile pyIsSpace = rs := by
        have happ := List.takeWhile_append_dropWhile pyIsSpace rs
        rw [List.isEmpty_iff.mp hd, List.append_nil] at happ
        exact happ
      rw [hteq]
      by_cases h2 : 2 ≤ (c :: rs).length
      · rw [if_pos h2]
        simp only [Option.isSome_some, true_iff]
        refine ⟨hc, ?_⟩
        intro hrs
        rw [hrs] at h2
        simp at h2
      · rw [if_neg h2]
        simp only [Option.isSome_none, Bool.false_eq_true, false_iff]
        intro hx
        have : rs = [] := by
          cases rs with
          | nil => rfl
          | cons a b => exfalso; apply h2; simp only [List.length_cons]; omega
        exact hx.2 this
    · rw [if_neg hd]
      simp only [Option.isSome_some, true_iff]
      refine ⟨hc, ?_⟩
      intro hrs
      rw [hrs] at hd
      simp at hd
  · simp only [matchTail, List.takeWhile_cons_of_neg hc, List.isEmpty_nil, if_true,
      Option.isSome_none, Bool.false_eq_true, false_iff]
    intro hx
    exact hc hx.1

theorem matchTail_nil : matchTail [] = none := rfl

theorem matchTail_cons_nonspace (c : Char) (rs : List Char) (h : pyIsSpace c = false) :
    matchTail (c :: rs) = none := by
  have hneg : ¬ pyIsSpace c = true := by simp [h]
  simp only [matchTail, List.takeWhile_cons_of_neg hneg, List.isEmpty_nil, if_true]

theorem matchTail_eq_some (r g2 : List Char) (h : matchTail r = some g2) :
    ∃ w2, r = w2 ++ g2 ∧ w2 ≠ [] ∧ (∀ x ∈ w2, pyIsSpace x = true) ∧ g2 ≠ [] := by
  simp only [matchTail] at h
  by_cases h1 : (r.takeWhile pyIsSpace).isEmpty = true
  · rw [if_pos h1] at h
    exact Option.noConfusion h
  · rw [if_neg h1] at h
    by_cases h2 : (r.dropWhile pyIsSpace).isEmpty = true
    · rw [if_pos h2] at h
      by_cases h3 : 2 ≤ (r.takeWhile pyIsSpace).length
      · rw [if_pos h3] at h
        injection h with h4
        subst h4
        have hr : r.takeWhile pyIsSpace = r := by
          have happ := List.takeWhile_append_dropWhile pyIsSpace r
          rw [List.isEmpty_iff.mp h2, List.append_nil] at happ
          exact happ
        refine ⟨(r.takeWhile pyIsSpace).take ((r.takeWhile pyIsSpace).length - 1), ?_, ?_, ?_, ?_⟩
        · rw [List.take_append_drop, hr]
        · intro hne
          have hlen := congrArg List.length hne
          rw [List.length_take] at hlen
          simp at hlen
          omega
        · intro x hx
          exact List.mem_takeWhile_imp (List.take_subset _ _ hx)
        · intro hne
          have hlen := congrArg List.length hne
          rw [List.length_drop] at hlen
          simp at hlen
          omega
      · rw [if_neg h3] at h
        exact Option.noConfusion h
    · rw [if_neg h2] at h
      injection h with h4
      subst h4
      refine ⟨r.takeWhile pyIsSpace, ?_, ?_, ?_, ?_⟩
      · rw [List.takeWhile_append_dropWhile]
      · intro hne
        rw [hne] at h1
        exact h1 rfl
      · intro x hx
        exact List.mem_takeWhile_imp hx
      · intro hne
        rw [hne] at h2
        exact h2 rfl

theorem afterV_eq_some (r g2 : List Char) (h : afterV r = some g2) :
    ∃ tk rest, r = tk ++ rest ∧ (tk = ['s'] ∨ tk = ['S'] ∨ tk = ['.'] ∨ tk = []) ∧
      matchTail rest = some g2 := by
  cases r with
  | nil => exact Option.noConfusion h
  | cons d r3 =>
    simp only [afterV] at h
    by_cases hs : (d == 's' || d == 'S') = true
    · rw [if_pos hs] at h
      have hd : d = 's' ∨ d = 'S' := by simpa using hs
      have hdot : (d == '.') = false := by rcases hd with rfl | rfl <;> rfl
      have hsp : pyIsSpace d = false := by rcases hd with rfl | rfl <;> rfl
      cases hmt : matchTail r3 with
      | some g =>
        rw [hmt, Option.some_orElse] at h
        injection h with h4
        subst h4
        refine ⟨[d], r3, rfl, ?_, hmt⟩
        rcases hd with rfl | rfl
        · exact Or.inl rfl
        · exact Or.inr (Or.inl rfl)
      | none =>
        exfalso
        rw [hmt, Option.none_orElse] at h
        rw [if_neg (by simp [hdot]), Option.none_orElse,
          matchTail_cons_nonspace d r3 hsp] at h
        exact Option.noConfusion h
    · rw [if_neg hs, Option.none_orElse] at h
      by_cases hdot : (d == '.') = true
      · rw [if_pos hdot] at h
        have hd : d = '.' := by simpa using hdot
        subst hd
        cases hmt : matchTail r3 with
        | some g =>
          rw [hmt, Option.some_orElse] at h
          injection h with h4
          subst h4
          exact ⟨['.'], r3, rfl, Or.inr (Or.inr (Or.inl rfl)), hmt⟩
        | none =>
          exfalso
          rw [hmt, Option.none_orElse, matchTail_cons_nonspace '.' r3 rfl] at h
          exact Option.noConfusion h
      · rw [if_neg hdot, Option.none_orElse] at h
        exact ⟨[], d :: r3, rfl, Or.inr (Or.inr (Or.inr rfl)), h⟩

theorem afterV_isSome_s (d : Char) (r3 : List Char) (hd : d = 's' ∨ d = 'S')
    (h : (matchTail r3).isSome = true) : (afterV (d :: r3)).isSome = true := by
  obtain ⟨g, hg⟩ := Option.isSome_iff_exists.mp h
  have hds : (d == 's' || d == 'S') = true := by rcases hd with rfl | rfl <;> rfl
  simp only [afterV]
  rw [if_pos hds, hg, Option.some_orElse]
  rfl

theorem afterV_isSome_dot (r3 : List Char)
    (h : (matchTail r3).isSome = true) : (afterV ('.' :: r3)).isSome = true := by
  obtain ⟨g, hg⟩ := Option.isSome_iff_exists.mp h
  simp only [afterV]
  rw [if_neg (by decide), Option.none_orElse, if_pos (by decide), hg, Option.some_orElse]
  rfl

theorem afterV_isSome_space (d : Char) (r3 : List Char) (hd : pyIsSpace d = true)
    (h : (matchTail (d :: r3)).isSome = true) : (afterV (d :: r3)).isSome = true := by
  have h1 : ¬ (d == 's' || d == 'S') = true := by
    intro hx
    have hx2 : d = 's' ∨ d = 'S' := by simpa using hx
    rcases hx2 with rfl | rfl <;> exact Bool.noConfusion hd
  have h2 : ¬ (d == '.') = true := by
    intro hx
    have hx2 : d = '.' := by simpa using hx
    subst hx2
    exact Bool.noConfusion hd
  obtain ⟨g, hg⟩ := Option.isSome_iff_exists.mp h
  simp only [afterV]
  rw [if_neg h1, Option.none_orElse, if_neg h2, Option.none_orElse, hg]
  rfl

theorem tryRest1_eq_some (b g2 : List Char) (h : tryRest1 b = some g2) :
    ∃ w1 tok rest, b = w1 ++ tok ++ rest ∧ w1 ≠ [] ∧ (∀ x ∈ w1, pyIsSpace x = true) ∧
      tok ∈ vforms ∧ matchTail rest = some g2 := by
  simp only [tryRest1] at h
  cases hdw : b.dropWhile pyIsSpace with
  | nil =>
    simp only [hdw] at h
    exact Option.noConfusion h
  | cons c r2 =>
    simp only [hdw] at h
    by_cases hw : (b.takeWhile pyIsSpace).isEmpty = true
    · rw [if_pos hw] at h
      exact Option.noConfusion h
    · rw [if_neg hw] at h
      by_cases hv : (c == 'v' || c == 'V') = true
      · rw [if_pos hv] at h
        obtain ⟨tk, rest, hr2, htk, hmt⟩ := afterV_eq_some r2 g2 h
        refine ⟨b.takeWhile pyIsSpace, c :: tk, rest, ?_, ?_, ?_, ?_, hmt⟩
        · conv_lhs => rw [← List.takeWhile_append_dropWhile pyIsSpace b]
          rw [hdw, hr2]
          simp [List.append_assoc]
        · intro hne
          rw [hne] at hw
          exact hw rfl
        · intro x hx
          exact List.mem_takeWhile_imp hx
        · have hc : c = 'v' ∨ c = 'V' := by simpa using hv
          rcases hc with rfl | rfl <;> rcases htk with rfl | rfl | rfl | rfl <;> decide
      · rw [if_neg hv] at h
        exact Option.noConfusion h

theorem tryRest2_eq_some (b g2 : List Char) (h : tryRest2 b = some g2) :
    ∃ w1 tok rest, b = w1 ++ tok ++ rest ∧ w1 ≠ [] ∧ (∀ x ∈ w1, pyIsSpace x = true) ∧
      tok ∈ vforms ∧ matchTail rest = some g2 := by
  simp only [tryRest2] at h
  cases hdw : b.dropWhile pyIsSpace with
  | nil =>
    simp only [hdw] at h
    exact Option.noConfusion h
  | cons c r1 =>
    cases r1 with
    | nil =>
      simp only [hdw] at h
      exact Option.noConfusion h
    | cons d r2 =>
      simp only [hdw] at h
      by_cases hw : (b.takeWhile pyIsSpace).isEmpty = true
      · rw [if_pos hw] at h
        exact Option.noConfusion h
      · rw [if_neg hw] at h
        by_cases hv : ((c == 'v' || c == 'V') && (d == 's' || d == 'S')) = true
        · rw [if_pos hv] at h
          refine ⟨b.takeWhile pyIsSpace, [c, d], r2, ?_, ?_, ?_, ?_, h⟩
          · conv_lhs => rw [← List.takeWhile_append_dropWhile pyIsSpace b]
            rw [hdw]
            simp [List.append_assoc]
          · intro hne
            rw [hne] at hw
            exact hw rfl
          · intro x hx
            exact List.mem_takeWhile_imp hx
          · have hc : (c = 'v' ∨ c = 'V') ∧ (d = 's' ∨ d = 'S') := by simpa using hv
            rcases hc.1 with rfl | rfl <;> rcases hc.2 with rfl | rfl <;> decide
        · rw [if_neg hv] at h
          exact Option.noConfusion h

theorem takeWhile_append_cons (p : Char → Bool) (xs : List Char) (y : Char) (ys : List Char)
    (h1 : ∀ x ∈ xs, p x = true) (h2 : p y = false) :
    (xs ++ y :: ys).takeWhile p = xs ∧ (xs ++ y :: ys).dropWhile p = y :: ys := by
  induction xs with
  | nil =>
    simp only [List.nil_append]
    exact ⟨List.takeWhile_cons_of_neg (by simp [h2]), List.dropWhile_cons_of_neg (by simp [h2])⟩
  | cons x xs ih =>
    have hx : p x = true := h1 x (List.mem_cons_self _ _)
    have ih2 := ih (fun z hz => h1 z (List.mem_cons_of_mem _ hz))
    simp only [List.cons_append, List.takeWhile_cons_of_pos hx, List.dropWhile_cons_of_pos hx]
    exact ⟨by rw [ih2.1], ih2.2⟩

theorem tryRest1_isSome_cons (w1 : List Char) (vc : Char) (rest0 : List Char)
    (hw1 : w1 ≠ []) (hw1s : ∀ x ∈ w1, pyIsSpace x = true)
    (hvc : vc = 'v' ∨ vc = 'V')
    (hAfter : (afterV rest0).isSome = true) :
    (tryRest1 (w1 ++ vc :: rest0)).isSome = true := by
  have hvcs : pyIsSpace vc = false := by rcases hvc with rfl | rfl <;> rfl
  have hsp := takeWhile_append_cons pyIsSpace w1 vc rest0 hw1s hvcs
  simp only [tryRest1]
  rw [hsp.2, hsp.1]
  show (if w1.isEmpty = true then none
    else if (vc == 'v' || vc == 'V') = true then afterV rest0 else none).isSome = true
  rw [if_neg (by simp [List.isEmpty_iff, hw1])]
  rw [if_pos (by rcases hvc with rfl | rfl <;> rfl)]
  exact hAfter

theorem tryRest1_isSome_of (w1 tok w2 post : List Char)
    (hw1 : w1 ≠ []) (hw1s : ∀ x ∈ w1, pyIsSpace x = true)
    (htok : tok ∈ vforms)
    (hw2 : w2 ≠ []) (hw2s : ∀ x ∈ w2, pyIsSpace x = true)
    (hpost : post ≠ []) :
    (tryRest1 (w1 ++ (tok ++ (w2 ++ post)))).isSome = true := by
  obtain ⟨wc, w2t, rfl⟩ : ∃ wc w2t, w2 = wc :: w2t := by
    cases w2 with
    | nil => exact absurd rfl hw2
    | cons a b => exact ⟨a, b, rfl⟩
  have hwc : pyIsSpace wc = true := hw2s wc (List.mem_cons_self _ _)
  have hmt : (matchTail (wc :: (w2t ++ post))).isSome = true := by
    rw [matchTail_isSome_cons]
    refine ⟨hwc, ?_⟩
    intro hx
    exact hpost (List.append_eq_nil.mp hx).2
  have hspace : (afterV (wc :: (w2t ++ post))).isSome = true :=
    afterV_isSome_space wc (w2t ++ post) hwc hmt
  have hmts : (afterV ('s' :: ((wc :: w2t) ++ post))).isSome = true :=
    afterV_isSome_s 's' _ (Or.inl rfl) hmt
  have hmtS : (afterV ('S' :: ((wc :: w2t) ++ post))).isSome = true :=
    afterV_isSome_s 'S' _ (Or.inr rfl) hmt
  have hmtd : (afterV ('.' :: ((wc :: w2t) ++ post))).isSome = true :=
    afterV_isSome_dot _ hmt
  have hv : tok = ['v'] ∨ tok = ['V'] ∨ tok = ['v', 's'] ∨ tok = ['v', 'S'] ∨
      tok = ['V', 's'] ∨ tok = ['V', 'S'] ∨ tok = ['v', '.'] ∨ tok = ['V', '.'] := by
    simpa [vforms] using htok
  rcases hv with rfl | rfl | rfl | rfl | rfl | rfl | rfl | rfl
  · exact tryRest1_isSome_cons w1 'v' _ hw1 hw1s (Or.inl rfl) hspace
  · exact tryRest1_isSome_cons w1 'V' _ hw1 hw1s (Or.inr rfl) hspace
  · exact tryRest1_isSome_cons w1 'v' _ hw1 hw1s (Or.inl rfl) hmts
  · exact tryRest1_isSome_cons w1 'v' _ hw1 hw1s (Or.inl rfl) hmtS
  · exact tryRest1_isSome_cons w1 'V' _ hw1 hw1s (Or.inr rfl) hmts
  · exact tryRest1_isSome_cons w1 'V' _ hw1 hw1s (Or.inr rfl) hmtS
  · exact tryRest1_isSome_cons w1 'v' _ hw1 hw1s (Or.inl rfl) hmtd
  · exact tryRest1_isSome_cons w1 'V' _ hw1 hw1s (Or.inr rfl) hmtd

theorem searchLoop_eq_some (t : List Char → Option (List Char)) :
    ∀ (l acc : List Char) (g1 g2 : List Char), searchLoop t acc l = some (g1, g2) →
      ∃ a b, l = a ++ b ∧ a ≠ [] ∧ t b = some g2 := by
  intro l
  induction l with
  | nil =>
    intro acc g1 g2 h
    exact Option.noConfusion h
  | cons c rs ih =>
    intro acc g1 g2 h
    rw [searchLoop] at h
    cases ht : t rs with
    | some g =>
      rw [ht] at h
      injection h with h4
      have hg : g = g2 := congrArg Prod.snd h4
      exact ⟨[c], rs, rfl, by simp, by rw [ht, hg]⟩
    | none =>
      rw [ht] at h
      obtain ⟨a, b, heq, ha, htb⟩ := ih (c :: acc) g1 g2 h
      exact ⟨c :: a, b, by rw [heq, List.cons_append], by simp, htb⟩

theorem searchLoop_isSome_append (t : List Char → Option (List Char)) :
    ∀ (a b acc : List Char), (t b).isSome = true → a ≠ [] →
      (searchLoop t acc (a ++ b)).isSome = true := by
  intro a
  induction a with
  | nil =>
    intro b acc _ ha
    exact absurd rfl ha
  | cons c a2 ih =>
    intro b acc hb _
    rw [List.cons_append, searchLoop]
    cases a2 with
    | nil =>
      simp only [List.nil_append]
      obtain ⟨g, hg⟩ := Option.isSome_iff_exists.mp hb
      rw [hg]
      rfl
    | cons d a3 =>
      cases htm : t (d :: a3 ++ b) with
      | some g => rfl
      | none => exact ih b (c :: acc) hb (by simp)

theorem legOfLine_isSome_eq (line : String) :
    (legOfLine line).isSome = (reSearch1 line.data <|> reSearch2 line.data).isSome := by
  simp only [legOfLine]
  cases ho : (reSearch1 line.data <|> reSearch2 line.data) with
  | none => rfl
  | some p => cases p; rfl

/-- The per-line regex of the extractor matches exactly the lines the spec
describes: a case-insensitive `v`/`vs`/`v.` token with whitespace on both
sides and non-empty captures around it. -/
theorem legOfLine_isSome_iff (line : String) :
    (legOfLine line).isSome = true ↔ spec_hasVersusSeparator line := by
  rw [legOfLine_isSome_eq]
  constructor
  · intro h
    have hdec : ∃ g2 a b, line.data = a ++ b ∧ a ≠ [] ∧
        (∃ w1 tok rest, b = w1 ++ tok ++ rest ∧ w1 ≠ [] ∧
          (∀ x ∈ w1, pyIsSpace x = true) ∧ tok ∈ vforms ∧ matchTail rest = some g2) := by
      cases hr1 : reSearch1 line.data with
      | some p =>
        obtain ⟨g1, g2⟩ := p
        obtain ⟨a, b, heq, ha, htb⟩ := searchLoop_eq_some tryRest1 line.data [] g1 g2 hr1
        exact ⟨g2, a, b, heq, ha, tryRest1_eq_some b g2 htb⟩
      | none =>
        rw [hr1, Option.none_orElse] at h
        obtain ⟨p, hr2⟩ := Option.isSome_iff_exists.mp h
        obtain ⟨g1, g2⟩ := p
        obtain ⟨a, b, heq, ha, htb⟩ := searchLoop_eq_some tryRest2 line.data [] g1 g2 hr2
        exact ⟨g2, a, b, heq, ha, tryRest2_eq_some b g2 htb⟩
    obtain ⟨g2, a, b, heq, ha, w1, tok, rest, hb, hw1, hw1s, htok, hmt⟩ := hdec
    obtain ⟨w2, hrest, hw2, hw2s, hg2⟩ := matchTail_eq_some rest g2 hmt
    refine ⟨a, w1, tok, w2, g2, ?_, ha, hg2, hw1, hw2, hw1s, hw2s, htok⟩
    rw [heq, hb, hrest]
    simp [List.append_assoc]
  · intro hspec
    obtain ⟨pre, w1, tok, w2, post, heq, hpre, hpost, hw1, hw2, hw1s, hw2s, htok⟩ := hspec
    have htr : (tryRest1 (w1 ++ (tok ++ (w2 ++ post)))).isSome = true :=
      tryRest1_isSome_of w1 tok w2 post hw1 hw1s htok hw2 hw2s hpost
    have heq2 : line.data = pre ++ (w1 ++ (tok ++ (w2 ++ post))) := by
      rw [heq]
      simp [List.append_assoc]
    have h1 : (reSearch1 line.data).isSome = true := by
      rw [reSearch1, heq2]
      exact searchLoop_isSome_append tryRest1 pre _ [] htr hpre
    obtain ⟨p, hp⟩ := Option.isSome_iff_exists.mp h1
    rw [hp, Option.some_orElse]
    rfl

/-! ### Strip idempotence (the extractor's captures are trimmed) -/

theorem dropWhile_head_false (p : Char → Bool) :
    ∀ (l : List Char) (c : Char), (l.dropWhile p).head? = some c → p c = false := by
  intro l
  induction l with
  | nil => intro c h; exact Option.noConfusion h
  | cons a l ih =>
    intro c h
    by_cases ha : p a = true
    · rw [List.dropWhile_cons_of_pos ha] at h
      exact ih c h
    · rw [List.dropWhile_cons_of_neg ha] at h
      injection h with h2
      subst h2
      simpa using ha

theorem dropWhile_eq_self_of_head (p : Char → Bool) (l : List Char)
    (h : ∀ c, l.head? = some c → p c = false) : l.dropWhile p = l := by
  cases l with
  | nil => rfl
  | cons a l => exact List.dropWhile_cons_of_neg (by simp [h a rfl])

theorem trimRight_head? : ∀ l : List Char, trimRight l = [] ∨ (trimRight l).head? = l.head? := by
  intro l
  cases l with
  | nil => exact Or.inl rfl
  | cons c rest =>
    rw [trimRight]
    cases htr : trimRight rest with
    | nil =>
      by_cases hc : pyIsSpace c = true
      · rw [if_pos hc]; exact Or.inl rfl
      · rw [if_neg hc]; exact Or.inr rfl
    | cons b r2 => exact Or.inr rfl

theorem trimRight_getLast_false :
    ∀ (l : List Char) (c : Char), (trimRight l).getLast? = some c → pyIsSpace c = false := by
  intro l
  induction l with
  | nil => intro c h; exact Option.noConfusion h
  | cons a rest ih =>
    intro c h
    rw [trimRight] at h
    cases htr : trimRight rest with
    | nil =>
      rw [htr] at h
      by_cases ha : pyIsSpace a = true
      · rw [if_pos ha] at h
        exact Option.noConfusion h
      · rw [if_neg ha] at h
        have : a = c := by simpa using h
        subst this
        simpa using ha
    | cons b r2 =>
      rw [htr] at h
      rw [List.getLast?_cons_cons] at h
      exact ih c (by rw [htr]; exact h)

theorem trimRight_eq_self :
    ∀ l : List Char, (∀ c, l.getLast? = some c → pyIsSpace c = false) → trimRight l = l := by
  intro l
  induction l with
  | nil => intro _; rfl
  | cons a rest ih =>
    intro h
    rw [trimRight]
    cases rest with
    | nil =>
      have ha := h a rfl
      simp only [trimRight]
      rw [if_neg (by simp [ha])]
    | cons b r2 =>
      have htr : trimRight (b :: r2) = b :: r2 :=
        ih (fun c hc => h c (by rw [List.getLast?_cons_cons]; exact hc))
      rw [htr]

theorem stripChars_left_stripped (l : List Char) :
    (stripChars l).dropWhile pyIsSpace = stripChars l := by
  apply dropWhile_eq_self_of_head
  intro c hc
  rcases trimRight_head? (l.dropWhile pyIsSpace) with h | h
  · rw [stripChars, h] at hc
    exact Option.noConfusion hc
  · rw [stripChars, h] at hc
    exact dropWhile_head_false pyIsSpace l c hc

theorem stripChars_idem (l : List Char) : stripChars (stripChars l) = stripChars l := by
  calc stripChars (stripChars l) = trimRight ((stripChars l).dropWhile pyIsSpace) := rfl
    _ = trimRight (stripChars l) := by rw [stripChars_left_stripped]
    _ = stripChars l := trimRight_eq_self _ (fun c hc => trimRight_getLast_false _ c hc)

theorem pyStrip_idem (s : String) : pyStrip (pyStrip s) = pyStrip s := by
  show (⟨stripChars (stripChars s.data)⟩ : String) = ⟨stripChars s.data⟩
  rw [stripChars_idem]

/-! ## Claims -/

/-- C1, counterexample: in `c1Payload` the first candidate key `booking` is
present with value `[]`, yet the normalizer does not report "not found": it
falls through to `bets` and returns its leg, because `if not data: continue`
treats the empty (falsy) list exactly like an absent key. -/
theorem C1_counterexample :
    alookup c1Payload "booking" = some (JSON.arr []) ∧
    parse_slip_from_payload c1Payload =
      some [{ home := JSON.str "X", away := JSON.str "Y", market := JSON.str "",
              pick := JSON.str "", odds := none }] :=
  ⟨rfl, rfl⟩

/-- C1 (amended): a first candidate key holding an empty list is skipped —
the scan behaves as if the key were absent and tries the subsequent keys,
and a later key holding a non-empty list of items is used. -/
theorem C1_empty_list_falls_through :
    (∀ rest : List (String × JSON), alookup rest "booking" = none →
      parse_slip_from_payload (("booking", JSON.arr []) :: rest) =
        parse_slip_from_payload rest) ∧
    (∀ items : List (List (String × JSON)), items ≠ [] →
      parse_slip_from_payload
          [("booking", JSON.arr []), ("bets", JSON.arr (items.map JSON.obj))] =
        some ((items.map JSON.obj).map legOfItem)) := by
  constructor
  · intro rest h
    have hself : alookup (("booking", JSON.arr []) :: rest) "booking" =
        some (JSON.arr []) := by simp [alookup]
    simp only [parse_slip_from_payload, candidateKeys]
    rw [slipFromKeys_skip_falsy _ _ _ _ hself rfl, slipFromKeys_skip_none _ _ _ h]
    exact slipFromKeys_cons_irrel rest "booking" (JSON.arr []) _ (by decide)
  · intro items h
    match items, h with
    | i :: is, _ => rfl

theorem C1_empty_list_falls_through_witness :
    alookup [("bets", JSON.arr [JSON.obj [("team1", JSON.str "X")]])] "booking" = none ∧
    parse_slip_from_payload
        (("booking", JSON.arr []) :: [("bets", JSON.arr [JSON.obj [("team1", JSON.str "X")]])]) =
      parse_slip_from_payload [("bets", JSON.arr [JSON.obj [("team1", JSON.str "X")]])] ∧
    parse_slip_from_payload
        [("booking", JSON.arr []),
         ("bets", JSON.arr ([[("team1", JSON.str "A")]].map JSON.obj))] =
      some (([[("team1", JSON.str "A")]].map JSON.obj).map legOfItem) :=
  ⟨rfl, C1_empty_list_falls_through.1 _ rfl,
    C1_empty_list_falls_through.2 _ (List.cons_ne_nil _ _)⟩

/-- C2: the "relaxed re-parse" of the locator is `json.loads` applied to
the very same unmodified substring, so it can never succeed where the
strict parse failed; on `c2Html` the second pattern matches and captures
`c2Cap` (which carries a trailing comma), both parse attempts fail, every
later pattern fails to match, and the locator returns nothing — against
the claimed (and comment-promised) tolerance of trailing artifacts.  The
last conjunct shows the true part of the claim: a failed pattern falls
through to the next pattern. -/
theorem C2_reparse_never_relaxed :
    searchCapture (preludeAssign "window.__DATA__".data) c2Html.data = some c2Cap.data ∧
    json_loads c2Cap = none ∧
    (∀ s : String, relaxed_reparse s = json_loads s) ∧
    extract_json_payload_from_html c2Html = none ∧
    extract_json_payload_from_html c2Html2 =
      some (JSON.obj [("bets", JSON.arr [JSON.num 1])]) :=
  ⟨rfl, rfl, fun _ => rfl, rfl, by with_unfolding_all rfl⟩

/-- C3: the text extractor yields, in line order, one leg per line
containing a versus separator (case-insensitive `v`, `vs`, `v.` with
whitespace on both sides and non-empty names on both sides), with home and
away the trimmed captures, market `"Unknown"`, pick `""`, odds absent;
`"A vs B"` gives home `"A"`, away `"B"`; lines without a separator are
skipped without error, and when no line matches the result is absent
rather than an empty list. -/
theorem C3_text_extractor :
    parse_slip_from_text "A vs B" =
      some [{ home := JSON.str "A", away := JSON.str "B", market := JSON.str "Unknown",
              pick := JSON.str "", odds := none }] ∧
    (∀ line : String, (legOfLine line).isSome = true ↔ spec_hasVersusSeparator line) ∧
    (∀ (line : String) (leg : Leg), legOfLine line = some leg →
      leg.market = JSON.str "Unknown" ∧ leg.pick = JSON.str "" ∧ leg.odds = none ∧
      (∃ hstr astr : String, leg.home = JSON.str hstr ∧ leg.away = JSON.str astr ∧
        pyStrip hstr = hstr ∧ pyStrip astr = astr)) ∧
    (∀ t : String, parse_slip_from_text t ≠ some []) ∧
    (∀ t : String, parse_slip_from_text t = some ((linesOf t).filterMap legOfLine) ∨
      parse_slip_from_text t = none) := by
  refine ⟨rfl, legOfLine_isSome_iff, ?_, ?_, ?_⟩
  · intro line leg h
    simp only [legOfLine] at h
    cases ho : (reSearch1 line.data <|> reSearch2 line.data) with
    | none =>
      simp only [ho] at h
      exact Option.noConfusion h
    | some p =>
      obtain ⟨g1, g2⟩ := p
      simp only [ho] at h
      injection h with h2
      subst h2
      refine ⟨rfl, rfl, rfl, ⟨⟨stripChars g1⟩, ⟨stripChars g2⟩, rfl, rfl, ?_, ?_⟩⟩
      · show (⟨stripChars (stripChars g1)⟩ : String) = ⟨stripChars g1⟩
        rw [stripChars_idem]
      · show (⟨stripChars (stripChars g2)⟩ : String) = ⟨stripChars g2⟩
        rw [stripChars_idem]
  · intro t h
    simp only [parse_slip_from_text] at h
    by_cases he : ((linesOf t).filterMap legOfLine).isEmpty = true
    · rw [if_pos he] at h
      exact Option.noConfusion h
    · rw [if_neg he] at h
      injection h with h2
      exact he (by rw [h2]; rfl)
  · intro t
    simp only [parse_slip_from_text]
    by_cases he : ((linesOf t).filterMap legOfLine).isEmpty = true
    · right
      rw [if_pos he]
    · left
      rw [if_neg he]

theorem C3_text_extractor_witness :
    spec_hasVersusSeparator "A vs B" ∧
    ({ home := JSON.str "A", away := JSON.str "B", market := JSON.str "Unknown",
       pick := JSON.str "", odds := none } : Leg).market = JSON.str "Unknown" ∧
    parse_slip_from_text "junk" ≠ some [] :=
  ⟨(C3_text_extractor.2.1 "A vs B").mp rfl,
   (C3_text_extractor.2.2.1 "A vs B" _ rfl).1,
   C3_text_extractor.2.2.2.1 "junk"⟩

/-- C4: the `bets` payload with `team1`/`team2`/`price` aliases normalizes
to the single expected leg, and each field takes the first present truthy
alias in its fixed priority order. -/
theorem C4_alias_priority :
    parse_slip_from_payload
        [("bets", JSON.arr [JSON.obj
          [("team1", JSON.str "X"), ("team2", JSON.str "Y"), ("price", JSON.str "1.5")]])] =
      some [{ home := JSON.str "X", away := JSON.str "Y", market := JSON.str "",
              pick := JSON.str "", odds := some (3 / 2 : Rat) }] ∧
    (legOfObj [("team1", JSON.str "T"), ("home", JSON.str "H"), ("homeName", JSON.str "N")]).home =
      JSON.str "H" ∧
    (legOfObj [("awayName", JSON.str "N"), ("team2", JSON.str "T")]).away = JSON.str "T" ∧
    (legOfObj [("odd", JSON.num 3), ("price", JSON.num 2)]).odds = some 2 ∧
    (legOfObj [("marketName", JSON.str "M"), ("type", JSON.str "T")]).market = JSON.str "M" ∧
    (legOfObj [("selection", JSON.str "S")]).pick = JSON.str "S" := by
  refine ⟨?_, ?_, ?_, ?_, ?_, ?_⟩ <;> with_unfolding_all rfl

/-- C5: the demo request `BJ99999` bet9ja→sportybet succeeds, with the one
expected preview leg, for every fetcher (the branch never touches the
network) and every hash function. -/
theorem C5_demo_convert (fetch : String → Option (List Leg)) (hashFn : String → Int) :
    (convert fetch hashFn ⟨"BJ99999", Platform.bet9ja, Platform.sportybet⟩).ok = true ∧
    (convert fetch hashFn ⟨"BJ99999", Platform.bet9ja, Platform.sportybet⟩).preview =
      some ⟨[{ home := JSON.str "Barcelona", away := JSON.str "Real Madrid",
               market := JSON.str "O/U 2.5", pick := JSON.str "OVER",
               odds := some (39 / 20 : Rat) }]⟩ := by
  constructor <;> with_unfolding_all rfl

/-- C6: the market translator keeps length and order, rewrites only the
`market` field via the `(source platform, market)` table lookup, and passes
unmapped markets through unchanged.  (Stated over `getElem?`, so it covers
every position of every slip.) -/
theorem C6_market_translator (legs : List Leg) (fp tp : Platform) :
    (map_markets legs fp tp).length = legs.length ∧
    (∀ i : Nat,
      ((map_markets legs fp tp)[i]?).map Leg.home = (legs[i]?).map Leg.home ∧
      ((map_markets legs fp tp)[i]?).map Leg.away = (legs[i]?).map Leg.away ∧
      ((map_markets legs fp tp)[i]?).map Leg.pick = (legs[i]?).map Leg.pick ∧
      ((map_markets legs fp tp)[i]?).map Leg.odds = (legs[i]?).map Leg.odds ∧
      ((map_markets legs fp tp)[i]?).map Leg.market =
        (legs[i]?).map (fun l => marketGet fp l.market)) ∧
    (∀ s : String, alookup MARKET_MAP (fp, s) = none →
      marketGet fp (JSON.str s) = JSON.str s) := by
  refine ⟨?_, ?_, ?_⟩
  · rw [map_markets_eq_map]
    exact List.length_map _ _
  · intro i
    rw [map_markets_eq_map]
    cases h : legs[i]? with
    | none => simp [List.getElem?_map, h]
    | some leg => simp [List.getElem?_map, h]
  · intro s hs
    simp [marketGet, hs]

theorem C6_market_translator_witness :
    ((map_markets demoBet9jaLegs Platform.bet9ja Platform.sportybet)[0]?).map Leg.home =
      ((demoBet9jaLegs)[0]?).map Leg.home ∧
    marketGet Platform.bet9ja (JSON.str "O/U 2.5") = JSON.str "O/U 2.5" :=
  ⟨((C6_market_translator demoBet9jaLegs Platform.bet9ja Platform.sportybet).2.1 0).1,
    (C6_market_translator demoBet9jaLegs Platform.bet9ja Platform.sportybet).2.2
      "O/U 2.5" rfl⟩

/-- C7: every synthesized code is a two-letter platform tag (`BJ` exactly
for bet9ja, `SP` otherwise) followed by exactly five decimal digits,
i.e. it matches `^(SP|BJ)\d{5}$`, for every hash function and source
code. -/
theorem C7_code_format (hashFn : String → Int) (p : Platform) (code : String) :
    matches_SPBJ5 (generate_booking_code_for_demo hashFn p code) = true ∧
    ((generate_booking_code_for_demo hashFn p code).data.take 2 = ['B', 'J'] ↔
      p = Platform.bet9ja) := by
  have hn : (hashFn code).natAbs % 100000 < 100000 := Nat.mod_lt _ (by norm_num)
  have hlen : (pad5 ((hashFn code).natAbs % 100000)).length = 5 := pad5_length _ hn
  have hdig : (pad5 ((hashFn code).natAbs % 100000)).all Char.isDigit = true :=
    List.all_eq_true.mpr (pad5_digits _)
  cases p with
  | sportybet =>
    constructor
    · show matches_SPBJ5 ⟨'S' :: 'P' :: pad5 ((hashFn code).natAbs % 100000)⟩ = true
      simp [matches_SPBJ5, hlen, hdig]
    · show (⟨'S' :: 'P' :: pad5 ((hashFn code).natAbs % 100000)⟩ : String).data.take 2 =
          ['B', 'J'] ↔ Platform.sportybet = Platform.bet9ja
      simp [List.take]
  | bet9ja =>
    constructor
    · show matches_SPBJ5 ⟨'B' :: 'J' :: pad5 ((hashFn code).natAbs % 100000)⟩ = true
      simp [matches_SPBJ5, hlen, hdig]
    · show (⟨'B' :: 'J' :: pad5 ((hashFn code).natAbs % 100000)⟩ : String).data.take 2 =
          ['B', 'J'] ↔ Platform.bet9ja = Platform.bet9ja
      simp [List.take]

/-- C8: a request with equal source and target platforms is rejected with
the descriptive message and no outputs, identically for every fetcher and
hash function — no resolution strategy can influence (or be reached by)
this branch, and the total function raises nothing. -/
theorem C8_same_platform_rejected (fetch : String → Option (List Leg)) (hashFn : String → Int)
    (req : ConvertRequest) (h : req.from_platform = req.to_platform) :
    convert fetch hashFn req =
      { ok := false, message := "From/To platforms are the same.",
        converted_code := none, preview := none } := by
  simp [convert, h]

theorem C8_same_platform_rejected_witness :
    convert (fun _ => none) (fun _ => 0) ⟨"ABC", Platform.sportybet, Platform.sportybet⟩ =
      { ok := false, message := "From/To platforms are the same.",
        converted_code := none, preview := none } :=
  C8_same_platform_rejected _ _ _ rfl

/-- C9: every convert result with `ok = false` carries neither a converted
code nor a preview. -/
theorem C9_not_ok_no_outputs (fetch : String → Option (List Leg)) (hashFn : String → Int)
    (req : ConvertRequest) (h : (convert fetch hashFn req).ok = false) :
    (convert fetch hashFn req).converted_code = none ∧
    (convert fetch hashFn req).preview = none := by
  by_cases hft : req.from_platform = req.to_platform
  · simp [convert, hft]
  · cases hs : resolveSlip fetch req with
    | none => simp [convert, hft, hs]
    | some legs =>
      exfalso
      simp [convert, hft, hs] at h

theorem C9_not_ok_no_outputs_witness :
    (convert (fun _ => none) (fun _ => 0)
        ⟨"ABC", Platform.sportybet, Platform.bet9ja⟩).converted_code = none ∧
    (convert (fun _ => none) (fun _ => 0)
        ⟨"ABC", Platform.sportybet, Platform.bet9ja⟩).preview = none :=
  C9_not_ok_no_outputs _ _ _ rfl

/-- C10, counterexample: in `c10Payload` the first present odds alias is
`odds: 0`, which is falsy, yet the emitted leg's odds is `2.5`, not
absent: the `or` chain skips the falsy alias and takes the later truthy
`price`. -/
theorem C10_counterexample :
    alookup [("odds", JSON.num 0), ("price", JSON.num (5 / 2))] "odds" = some (JSON.num 0) ∧
    truthy (JSON.num 0) = false ∧
    parse_slip_from_payload c10Payload =
      some [{ home := JSON.str "", away := JSON.str "", market := JSON.str "",
              pick := JSON.str "", odds := some (5 / 2 : Rat) }] := by
  refine ⟨?_, ?_, ?_⟩ <;> with_unfolding_all rfl

/-- C10 (amended): for every payload item whose odds-alias values (odds,
price, odd) are all absent or falsy — the number 0, an empty string, or
null — the normalizer emits the leg with odds absent, and the coercion is
total and never raises.  In particular a genuine odds value of 0 whose
remaining aliases are absent or falsy is indistinguishable from a missing
odds.  (This is one-way: absent odds can also arise otherwise, e.g. from a
truthy alias that fails the float coercion.) -/
theorem C10_falsy_odds_skipped (it : List (String × JSON))
    (h : allOddsAliasesFalsy it = true) :
    (legOfObj it).odds = none := by
  have hft : firstTruthy it ["odds", "price", "odd"] = none :=
    firstTruthy_eq_none it _ h
  simp [legOfObj, hft]

theorem C10_falsy_odds_skipped_witness :
    allOddsAliasesFalsy [("odds", JSON.num 0), ("price", JSON.str "")] = true ∧
    (legOfObj [("odds", JSON.num 0), ("price", JSON.str "")]).odds = none :=
  ⟨rfl, C10_falsy_odds_skipped _ rfl⟩

end BetConverter
